import Mathlib

/-!
Verification development for the hrequests-js request execution and
concurrency engine.  Each section shallowly embeds one module of the
source (client.ts, cookies.ts, reqs.ts, toolbelt.ts, response.ts) and the
theorems at the end settle the frozen claims about it.
-/

namespace Hrequests

/-! ### Headers (bridge reply headers: map from name to list of values) -/

/-- Bridge reply headers: an association list from header name to the list
of values, as delivered by the transport (`Record<string, string[]>`).
Property access in the source is case sensitive, so lookup here is too. -/
abbrev Headers := List (String × List String)

/-- Exact-key lookup of a header value list (`headers[k]`). -/
def headerVal (hs : Headers) (k : String) : Option (List String) :=
  (hs.find? (fun p => p.1 = k)).map (fun p => p.2)

/-- First value of a header (`headers?.K?.[0]`). -/
def headerFirst (hs : Headers) (k : String) : Option String :=
  (headerVal hs k).bind List.head?

/-! ### Cookie jar as the trace of `setCookie` calls

`RequestsCookieJar.setCookie(cookieStr, url)` delegates storage to the
external tough-cookie jar; the embedding records the sequence of accepted
`setCookie` calls, which is the jar state the source code itself produces.
(Parsing and keyed deduplication happen inside tough-cookie, outside this
repository.) -/

/-- One `setCookie(cookieStr, requestUrl)` call recorded in the jar. -/
structure SetCookieCall where
  cookieStr : String
  url : String
deriving DecidableEq

/-- Cookie jar state: the ordered trace of `setCookie` calls. -/
abbrev Jar := List SetCookieCall

/-- The Set-Cookie values of a reply's headers:
`responseHeaders [set-cookie] || responseHeaders [Set-Cookie]`, empty when
both keys are absent (the code then returns an empty response jar). -/
def setCookieVals (hs : Headers) : List String :=
  match headerVal hs "set-cookie" with
  | some v => v
  | none => (headerVal hs "Set-Cookie").getD []

/-- Embedding of `extractCookiesToJar` (cookies.ts): for each Set-Cookie
value, the cookie is set both into a fresh response-scoped jar and into the
session jar, in header order.  Returns (responseCookieJar, updated session
jar).  The unused `requestHeaders` parameter of the source is omitted. -/
def extractCookiesToJar (requestUrl : String) (cookieJar : Jar)
    (responseHeaders : Headers) : Jar × Jar :=
  (setCookieVals responseHeaders).foldl
    (fun (p : Jar × Jar) c =>
      (p.1 ++ [⟨c, requestUrl⟩], p.2 ++ [⟨c, requestUrl⟩]))
    (([] : Jar), cookieJar)

/-! ### Transport reply and the TLSClient response builder (client.ts) -/

/-- One hop object of the transport reply:
`{status, target, headers, body, isBase64}`. -/
structure Hop where
  status : Nat
  target : Option String
  headers : Headers
  body : String
  isBase64 : Bool

/-- The decoded transport reply (`responseObject`): either a single hop
(`isHistory` false, the `response` field) or an ordered hop history. -/
structure ReplyObject where
  isHistory : Bool
  response : Hop
  history : List Hop

/-- Errors thrown by the client while decoding a reply. -/
inductive ClientErr where
  | clientException (msg : String)
  | typeError
deriving DecidableEq

/-- Normalized response produced by `TLSClient.buildResponseObj`, with the
final hop also carrying the earlier hops as `history`. -/
inductive BridgeResponse : Type where
  | mk : String → Nat → List (String × String) → Jar → String → Bool →
      List BridgeResponse → BridgeResponse

/-- Reconstructed URL of a bridge response. -/
def BridgeResponse.url : BridgeResponse → String
  | .mk u _ _ _ _ _ _ => u

/-- Status code of a bridge response. -/
def BridgeResponse.statusCode : BridgeResponse → Nat
  | .mk _ s _ _ _ _ _ => s

/-- Response-scoped cookie jar of a bridge response. -/
def BridgeResponse.cookies : BridgeResponse → Jar
  | .mk _ _ _ c _ _ _ => c

/-- History list of a bridge response. -/
def BridgeResponse.history : BridgeResponse → List BridgeResponse
  | .mk _ _ _ _ _ _ h => h

/-- Replace the history list (`resp.history = ...`). -/
def BridgeResponse.withHistory : BridgeResponse → List BridgeResponse → BridgeResponse
  | .mk u s hd c b i _, hist => .mk u s hd c b i hist

/-- Flattening of reply headers into single string values:
a one-element array keeps its element, otherwise values are joined
with a comma and a space. -/
def flattenHeaders (hs : Headers) : List (String × String) :=
  hs.map (fun p =>
    (p.1, match p.2 with
          | [v] => v
          | vs => String.intercalate ", " vs))

/-- URL recorded on a normalized hop: `res.target || url` (an absent or
empty target falls back to the reconstructed request URL). -/
def respUrl (url : String) (res : Hop) : String :=
  match res.target with
  | some t => if t = "" then url else t
  | none => url

/-- Embedding of `TLSClient.buildResponseObj`: a status-0 hop throws a
`ClientException` carrying the hop body (before any cookie extraction);
otherwise cookies are extracted into the session jar and the hop is
normalized, its URL being `res.target || url` (empty target falls back). -/
def buildResponseObj (url : String) (jar : Jar) (res : Hop) :
    Jar × Except ClientErr BridgeResponse :=
  if res.status = 0 then
    (jar, .error (.clientException (if res.body = "" then "Request failed" else res.body)))
  else
    let ex := extractCookiesToJar url jar res.headers
    (ex.2, .ok (.mk
      (respUrl url res)
      res.status
      (flattenHeaders res.headers)
      ex.1
      res.body
      (!res.isBase64)
      []))

/-- Reconstructed request URL of a hop: the original request URL for the
first hop, else `prev.headers?.Location?.[0] || url` from the previous
hop. -/
def hopUrl (origUrl : String) : Option Hop → String
  | none => origUrl
  | some p =>
    match headerFirst p.headers "Location" with
    | some l => if l = "" then origUrl else l
    | none => origUrl

/-- Embedding of the history loop of `TLSClient.buildResponse`: each hop is
normalized with its reconstructed URL, threading the session jar; a thrown
`ClientException` aborts the loop. -/
def buildHistory (origUrl : String) (jar : Jar) (prev : Option Hop) :
    List Hop → Jar × Except ClientErr (List BridgeResponse)
  | [] => (jar, .ok [])
  | h :: rest =>
    match buildResponseObj (hopUrl origUrl prev) jar h with
    | (jar', .error e) => (jar', .error e)
    | (jar', .ok r) =>
      match buildHistory origUrl jar' (some h) rest with
      | (jar'', .error e) => (jar'', .error e)
      | (jar'', .ok rs) => (jar'', .ok (r :: rs))

/-- Embedding of `TLSClient.buildResponse`: a non-history reply is a single
normalized hop; a history reply normalizes every hop in order and returns
the last one carrying all earlier hops as its history.  An empty history
array makes the source index `history[history.length - 1]` produce
`undefined` and fail with a TypeError, modelled as `ClientErr.typeError`. -/
def buildResponse (url : String) (jar : Jar) (ro : ReplyObject) :
    Jar × Except ClientErr BridgeResponse :=
  if !ro.isHistory then
    buildResponseObj url jar ro.response
  else
    match buildHistory url jar none ro.history with
    | (jar', .error e) => (jar', .error e)
    | (jar', .ok []) => (jar', .error .typeError)
    | (jar', .ok (r :: rs)) =>
      (jar', .ok (((r :: rs).getLast (by simp)).withHistory ((r :: rs).dropLast)))

/-! Specification helpers for the history builder, used to state what the
loop computes. -/

/-- The `setCookie` calls one hop contributes, given its reconstructed
request URL. -/
def cookieCallsOf (u : String) (hs : Headers) : List SetCookieCall :=
  (setCookieVals hs).map (fun c => ⟨c, u⟩)

/-- All `setCookie` calls contributed by a hop chain, in chain order, each
against its own reconstructed request URL. -/
def hopCookieCalls (origUrl : String) (prev : Option Hop) :
    List Hop → List SetCookieCall
  | [] => []
  | h :: t =>
    cookieCallsOf (hopUrl origUrl prev) h.headers ++ hopCookieCalls origUrl (some h) t

/-- The URLs recorded on the normalized hops of a chain, in chain order. -/
def hopUrlList (origUrl : String) (prev : Option Hop) : List Hop → List String
  | [] => []
  | h :: t => respUrl (hopUrl origUrl prev) h :: hopUrlList origUrl (some h) t

/-- A hop whose `target` field is falsy in the source (absent or the empty
string), so that the recorded URL is the reconstructed request URL. -/
def targetFalsy (h : Hop) : Prop :=
  h.target = none ∨ h.target = some ""

/-! ### Cookie jar lookup (cookies.ts, `RequestsCookieJar`)

For the lookup API the jar's contents are the cookies stored in the
external tough-cookie store, as returned by `_getAllCookies`; the lookup
logic itself (`_findNoDuplicates`, `get`) is source code and is embedded
verbatim over that list. -/

/-- A cookie as stored in the tough-cookie store (`key`, `value`, and
possibly null `domain` and `path`). -/
structure StoreCookie where
  key : String
  value : String
  domain : Option String
  path : Option String
deriving DecidableEq

/-- The two failure kinds of `_findNoDuplicates`: a `CookieConflictError`
when a second match is found, and a generic `Error` when none is. -/
inductive CookieErr where
  | conflict (name : String)
  | notFound (name : String)
deriving DecidableEq

/-- Whether a stored cookie passes the name and the optional domain and
path filters of `_findNoDuplicates`. -/
def cookieMatches (name : String) (domain path : Option String)
    (c : StoreCookie) : Bool :=
  c.key = name &&
  (match domain with | none => true | some d => c.domain = some d) &&
  (match path with | none => true | some p => c.path = some p)

/-- Loop of `_findNoDuplicates`: scans all cookies, remembering the first
matching value and throwing a `CookieConflictError` as soon as a second
match appears; with no match at the end a generic `Error` is thrown. -/
def findNoDuplicatesGo (name : String) (domain path : Option String) :
    List StoreCookie → Option String → Except CookieErr String
  | [], none => .error (.notFound name)
  | [], some v => .ok v
  | c :: rest, acc =>
    if cookieMatches name domain path c then
      match acc with
      | some _ => .error (.conflict name)
      | none => findNoDuplicatesGo name domain path rest (some c.value)
    else
      findNoDuplicatesGo name domain path rest acc

/-- Embedding of `RequestsCookieJar._findNoDuplicates`. -/
def findNoDuplicates (cookies : List StoreCookie) (name : String)
    (domain path : Option String) : Except CookieErr String :=
  findNoDuplicatesGo name domain path cookies none

/-- Embedding of `RequestsCookieJar.get`: the try/catch swallows every
error from `_findNoDuplicates` and returns the (possibly undefined)
default value. -/
def jarGet (cookies : List StoreCookie) (name : String)
    (defaultValue : Option String) (domain path : Option String) : Option String :=
  match findNoDuplicates cookies name domain path with
  | .ok v => some v
  | .error _ => defaultValue

/-- Number of cookies matching a bare name lookup (no qualifiers). -/
def jarMatchCount (cookies : List StoreCookie) (name : String) : Nat :=
  (cookies.filter (fun c => cookieMatches name none none c)).length

/-! ### CaseInsensitiveDict (toolbelt.ts)

The backing JS `Map` from lowercased key to the `[casedKey, value]` pair is
modelled as an insertion-ordered association list; `Map.set` on an existing
key updates the entry in place, keeping its position. -/

/-- ASCII lowercasing of one character (header names are ASCII, so this
matches the JS `toLowerCase` used by the source). -/
def lowerChar (c : Char) : Char :=
  if 65 ≤ c.toNat ∧ c.toNat ≤ 90 then Char.ofNat (c.toNat + 32) else c

/-- ASCII lowercasing of a string. -/
def lowerStr (s : String) : String :=
  ⟨s.data.map lowerChar⟩

/-- Entries of the backing map: (lowercased key, cased key, value). -/
abbrev CIDict := List (String × String × String)

/-- Embedding of `CaseInsensitiveDict.set`: stores `[key, value]` under the
lowercased key; an existing entry is overwritten in place, and the stored
cased key becomes the key of this call. -/
def ciSet (d : CIDict) (k v : String) : CIDict :=
  if d.any (fun e => e.1 = lowerStr k) then
    d.map (fun e => if e.1 = lowerStr k then (e.1, k, v) else e)
  else
    d ++ [(lowerStr k, k, v)]

/-- Embedding of `CaseInsensitiveDict.get`: lookup by lowercased key. -/
def ciGet (d : CIDict) (k : String) : Option String :=
  (d.find? (fun e => e.1 = lowerStr k)).map (fun e => e.2.2)

/-- Keys as reported by iteration (`keys`/`entries`): the stored cased
keys, in insertion order. -/
def ciKeys (d : CIDict) : List String :=
  d.map (fun e => e.2.1)

/-- The cased key currently stored for a lowercased key. -/
def ciCasedKey (d : CIDict) (lk : String) : Option String :=
  (d.find? (fun e => e.1 = lk)).map (fun e => e.2.1)

/-! ### Response encoding detection (response.ts) -/

/-- Whitespace class of the regex `\s`: the ECMAScript WhiteSpace and
LineTerminator code points — tab, line feed, vertical tab, form feed,
carriage return, space, no-break space U+00A0, Ogham space mark U+1680,
the Zs spaces U+2000..U+200A, line separator U+2028, paragraph separator
U+2029, narrow no-break space U+202F, medium mathematical space U+205F,
ideographic space U+3000, and zero width no-break space U+FEFF. -/
def isSpaceChar (c : Char) : Bool :=
  let n := c.toNat
  n = 9 || n = 10 || n = 11 || n = 12 || n = 13 || n = 32 ||
  n = 0xA0 || n = 0x1680 || (0x2000 ≤ n && n ≤ 0x200A) ||
  n = 0x2028 || n = 0x2029 || n = 0x202F || n = 0x205F ||
  n = 0x3000 || n = 0xFEFF

/-- Case-insensitive character comparison (the `i` regex flag). -/
def charEqCI (a b : Char) : Bool :=
  lowerChar a = lowerChar b

/-- Whether the text starts with the given pattern, case-insensitively. -/
def startsWithCI : List Char → List Char → Bool
  | [], _ => true
  | _ :: _, [] => false
  | p :: ps, c :: cs => charEqCI p c && startsWithCI ps cs

/-- Scan for the regex `/charset=([^\s;]+)/i`: at each position, try to
match `charset=` case-insensitively followed by a nonempty run of
characters that are neither whitespace nor a semicolon; the first position
where the whole pattern matches yields the captured run. -/
def charsetCapture : List Char → Option (List Char)
  | [] => none
  | c :: rest =>
    if startsWithCI "charset=".toList (c :: rest) then
      let cap := ((c :: rest).drop 8).takeWhile (fun ch => !isSpaceChar ch && ch ≠ ';')
      if cap.isEmpty then charsetCapture rest else some cap
    else
      charsetCapture rest

/-- Removal of quote characters, `replace(/['"]/g, "")`. -/
def stripQuotes (cs : List Char) : List Char :=
  cs.filter (fun ch => ch ≠ (Char.ofNat 39) && ch ≠ (Char.ofNat 34))

/-- BOM sniffing branch of `_detectEncoding`: with at least three body
bytes a UTF-8, UTF-16 BE or UTF-16 LE byte-order mark selects the
encoding; otherwise the default is `utf-8`. -/
def bomDetect (raw : List Nat) : String :=
  match raw with
  | b0 :: b1 :: b2 :: _ =>
    if b0 = 0xEF && b1 = 0xBB && b2 = 0xBF then "utf-8"
    else if b0 = 0xFE && b1 = 0xFF then "utf-16be"
    else if b0 = 0xFF && b1 = 0xFE then "utf-16le"
    else "utf-8"
  | _ => "utf-8"

/-- Embedding of `Response._detectEncoding`: a truthy Content-Type header
whose charset parameter matches gives the captured value with quotes
removed; otherwise the body's byte-order mark or the `utf-8` default. -/
def detectEncoding (headers : CIDict) (raw : List Nat) : String :=
  match ciGet headers "Content-Type" with
  | some ct =>
    if ct = "" then bomDetect raw
    else
      match charsetCapture ct.toList with
      | some cap => String.mk (stripQuotes cap)
      | none => bomDetect raw
  | none => bomDetect raw

/-- Encoding assigned by the `Response` constructor when no explicit
encoding option is given (`options.encoding || this._detectEncoding()`). -/
def responseEncoding (headers : CIDict) (raw : List Nat) : String :=
  detectEncoding headers raw

/-- Guard of the `text` getter: a falsy (empty) encoding throws
`EncodingNotFoundException`. -/
def textThrows (encoding : String) : Bool :=
  encoding = ""

/-! ### Call descriptors and the concurrency scheduler (reqs.ts)

The network outcome of each descriptor's underlying `session.request` call
is part of the descriptor here (the transport is external): either a
response or a thrown error.  Sessions are identified by a numeric id and
`bridge.destroySession` notifications are collected as a list of ids. -/

/-- Abstract response payload of a successful `session.request` call. -/
structure Resp where
  val : Nat
deriving DecidableEq

/-- Abstract error payload of a failed `session.request` call. -/
structure Err where
  code : Nat
deriving DecidableEq

/-- What the underlying `session.request` call does for a descriptor. -/
inductive Outcome where
  | success (r : Resp)
  | failure (e : Err)
deriving DecidableEq

/-- The response of a successful outcome (default on failure). -/
def Outcome.respD : Outcome → Resp
  | .success r => r
  | .failure _ => ⟨0⟩

/-- Whether an outcome is a success. -/
def Outcome.isSuccess : Outcome → Bool
  | .success _ => true
  | .failure _ => false

/-- A call descriptor (`TLSRequest`) as it enters the scheduler: the id of
the session bound at construction, whether that session is owned
(temporary, `_close` true) or borrowed, the `raiseException` flag, and the
outcome its `session.request` call would produce. -/
structure Desc where
  sid : Nat
  owned : Bool
  raiseException : Bool
  outcome : Outcome
deriving DecidableEq

/-- A TLS session object: its id and its `_closed` flag. -/
structure SessionObj where
  sid : Nat
  closed : Bool
deriving DecidableEq

/-- Embedding of `TLSClient.close`: on the first call the session is
marked closed and one `destroySession` notification is emitted; later
calls do nothing. -/
def sessionClose (s : SessionObj) : SessionObj × List Nat :=
  if s.closed then (s, []) else ({ s with closed := true }, [s.sid])

/-- Mutable state of a `TLSRequest`: the bound session (null once an owned
session was closed), the `_close` ownership flag, and the recorded
response or exception. -/
structure ReqState where
  session : Option SessionObj
  closeFlag : Bool
  response : Option Resp
  exception : Option Err
deriving DecidableEq

/-- Embedding of `TLSRequest._buildSession`: with no session supplied a
fresh temporary session is created and marked for closing; a supplied
session is bound and never closed by the descriptor. -/
def buildSession (given : Option SessionObj) (fresh : Nat) (st : ReqState) : ReqState :=
  match given with
  | none => { st with session := some ⟨fresh, false⟩, closeFlag := true }
  | some s => { st with session := some s, closeFlag := false }

/-- State of a descriptor right after construction: `_buildSession` ran
with the caller's session (borrowed) or none (owned, temporary). -/
def initState (d : Desc) : ReqState :=
  buildSession (if d.owned then none else some ⟨d.sid, false⟩) d.sid
    ⟨none, false, none, none⟩

/-- Embedding of `TLSRequest.closeSession`: only when the session is owned
and still bound, it is closed (emitting its destroy notification once) and
unbound. -/
def closeSession (st : ReqState) : ReqState × List Nat :=
  match st.session with
  | some s =>
    if st.closeFlag then ({ st with session := none }, (sessionClose s).2)
    else (st, [])
  | none => (st, [])

/-- Result of `TLSRequest.send`: the descriptor state, the destroy
notifications emitted, and the error that propagated out of `send`, if
any. -/
structure SendRes where
  st : ReqState
  events : List Nat
  thrown : Option Err
deriving DecidableEq

/-- Embedding of `TLSRequest.send`: a missing session is rebuilt; the
request outcome either records the response, or records the exception
(`raiseException` false), or propagates it (`raiseException` true); the
`finally` block closes an owned session on every path. -/
def send (d : Desc) (fresh : Nat) (st : ReqState) : SendRes :=
  let st0 := if st.session.isNone then buildSession none fresh st else st
  match d.outcome with
  | .success r =>
    let st1 := { st0 with response := some r }
    let cs := closeSession st1
    ⟨cs.1, cs.2, none⟩
  | .failure e =>
    if d.raiseException then
      let cs := closeSession st0
      ⟨cs.1, cs.2, some e⟩
    else
      let st1 := { st0 with exception := some e }
      let cs := closeSession st1
      ⟨cs.1, cs.2, none⟩

/-- The value a `map` worker resolves with for one descriptor: the
descriptor's `response` field (possibly null), a `FailedResponse`, or a
null from the exception handler. -/
inductive Slot where
  | resp (r : Resp)
  | failed (e : Err)
  | nullSlot
deriving DecidableEq

/-- An element of `map`'s output list. -/
inductive MapOut where
  | resp (r : Resp)
  | failed (e : Err)
deriving DecidableEq

/-- The output filter of `map`: null results are dropped. -/
def slotOut : Slot → Option MapOut
  | .resp r => some (.resp r)
  | .failed e => some (.failed e)
  | .nullSlot => none

/-- The exception handler type of `map`/`imap`
(`(request, error) => Response | null`). -/
abbrev Handler := Option (Desc → Err → Option Resp)

/-- Embedding of the per-descriptor worker of `map`: rebuild the session if
null, `send`, and return `req.response`; a thrown error is re-thrown when
`raiseException` is set, otherwise handled by the exception handler or
turned into a `FailedResponse`; the `finally` closes the session again
(a no-op after `send` already did).  Destroy notifications are collected
on every path. -/
def processRequest (handler : Handler) (d : Desc) : List Nat × Except Err Slot :=
  let st0 := initState d
  let st1 := if st0.session.isNone then buildSession none d.sid st0 else st0
  let sr := send d d.sid st1
  let cs := closeSession sr.st
  (sr.events ++ cs.2,
    match sr.thrown with
    | some e =>
      if d.raiseException then .error e
      else
        match handler with
        | some f =>
          .ok (match f d e with
               | some r => .resp r
               | none => .nullSlot)
        | none => .ok (.failed e)
    | none =>
      .ok (match sr.st.response with
           | some r => .resp r
           | none => .nullSlot))

/-- One window of `map` (`Promise.all` over the batch): every worker runs
to completion (so every destroy notification is emitted), and the window
rejects with the first thrown error if any worker threw. -/
def runWindow (handler : Handler) : List Desc → List Nat × Except Err (List Slot)
  | [] => ([], .ok [])
  | d :: rest =>
    let pr := processRequest handler d
    let prs := runWindow handler rest
    (pr.1 ++ prs.1,
      match pr.2, prs.2 with
      | .error e, _ => .error e
      | .ok _, .error e => .error e
      | .ok s, .ok ss => .ok (s :: ss))

/-- Successive windows of `map`: each window's non-null results are
appended to the output in window order; a rejected window propagates its
error and no further window starts. -/
def runWindows (handler : Handler) : List (List Desc) → List Nat × Except Err (List MapOut)
  | [] => ([], .ok [])
  | w :: rest =>
    let rw := runWindow handler w
    match rw.2 with
    | .error e => (rw.1, .error e)
    | .ok slots =>
      let rws := runWindows handler rest
      (rw.1 ++ rws.1,
        match rws.2 with
        | .error e => .error e
        | .ok outs => .ok (slots.filterMap slotOut ++ outs))

/-- Splitting into successive windows of `bs` descriptors.  The fuel is
the list length at entry; since `bs` is at least 1 whenever the list is
nonempty, the fuel is never exhausted. -/
def chunksF (bs : Nat) : Nat → List Desc → List (List Desc)
  | _, [] => []
  | 0, rest => [rest]
  | fuel + 1, d :: rest => ((d :: rest).take bs) :: chunksF bs fuel ((d :: rest).drop bs)

/-- Embedding of `map` (reqs.ts): the window size defaults to the number
of descriptors when absent or zero (`size || requests.length`), and the
descriptors are processed window by window.  Returns the destroy
notifications and the output (or the propagated error). -/
def mapModel (handler : Handler) (size : Option Nat) (ds : List Desc) :
    List Nat × Except Err (List MapOut) :=
  let bs := match size with
            | none => ds.length
            | some n => if n = 0 then ds.length else n
  runWindows handler (chunksF bs ds.length ds)

/-! ### imapEnum (reqs.ts)

Completion order is external: each descriptor gets a completion time, all
distinct in the intended runs.  `Promise.race` over the pending array
resolves with the first already-settled promise in array order, or, when
none is settled yet, with the pending promise of least completion time;
a settled promise stays settled and wins every later race it takes part
in.  The loop body, following the source, always removes the FIRST element
of the pending array (`findIndex` with an async predicate returns 0), then
yields the raced result and admits the next descriptor if any remain. -/

/-- A yielded outcome of `imap`/`imapEnum`: a response or a
`FailedResponse` (the source may also yield null, modelled by `Option`). -/
inductive IOut where
  | resp (r : Resp)
  | failed (e : Err)
deriving DecidableEq

/-- The per-descriptor worker of `imapEnum`: a success resolves with the
response; a recorded failure (`raiseException` false) leaves `response`
null; a thrown failure is given to the handler or becomes a
`FailedResponse` — this worker never rejects. -/
def imapProcess (handler : Handler) (d : Desc) : Option IOut :=
  match d.outcome with
  | .success r => some (.resp r)
  | .failure e =>
    if d.raiseException then
      match handler with
      | some f => (f d e).map IOut.resp
      | none => some (.failed e)
    else none

/-- One in-flight `imapEnum` worker: its original index, its completion
time, and the value it resolves with. -/
structure Task where
  originalIndex : Nat
  time : Nat
  result : Option IOut
deriving DecidableEq

/-- The pending task of least completion time (ties to the earlier array
position). -/
def minTimeTask (t : Task) : List Task → Task
  | [] => t
  | u :: rest => minTimeTask (if u.time < t.time then u else t) rest

/-- The task `Promise.race` resolves with at logical time `now`: the first
already-settled task in array order, else the one settling next. -/
def raceWinner (now : Nat) (t : Task) (rest : List Task) : Task :=
  match (t :: rest).find? (fun u => u.time ≤ now) with
  | some u => u
  | none => minTimeTask t rest

/-- Main loop of `imapEnum`, fuelled: race the pending array, remove its
first element, yield the raced result, and admit the next task while any
remain.  Each iteration removes one pending entry and admits at most one,
so fuel `size + 2 * K` always suffices. -/
def imapGo (tasks : List Task) : Nat → Nat → List Task → Nat → List (Nat × Option IOut)
  | 0, _, _, _ => []
  | _ + 1, _, [], _ => []
  | fuel + 1, now, t :: pending, index =>
    let w := raceWinner now t pending
    let now2 := max now w.time
    let rest :=
      if h : index < tasks.length then (pending ++ [tasks.get ⟨index, h⟩], index + 1)
      else (pending, index)
    (w.originalIndex, w.result) :: imapGo tasks fuel now2 rest.1 rest.2

/-- Embedding of `imapEnum` (reqs.ts): descriptors are tagged with their
original index, the first `size` of them are admitted, and the loop yields
`(originalIndex, outcome)` pairs until no promise is pending.  The `times`
environment gives each descriptor's completion time. -/
def imapEnumModel (handler : Handler) (size : Nat) (times : Nat → Nat)
    (ds : List Desc) : List (Nat × Option IOut) :=
  let tasks := ds.enum.map (fun p => Task.mk p.1 (times p.1) (imapProcess handler p.2))
  imapGo tasks (size + 2 * tasks.length) 0 (tasks.take size) (min size tasks.length)

/-! ### TLSClient lifecycle (client.ts) -/

/-- The lifecycle-relevant state of a `TLSClient`: its session id, its
`_closed` flag and its cookie jar. -/
structure ClientState where
  sid : Nat
  closed : Bool
  jar : Jar

/-- Embedding of `TLSClient.close`: the first call flips `_closed` and
emits one `destroySession` notification; any later call is a no-op. -/
def clientClose (s : ClientState) : ClientState × List Nat :=
  if s.closed then (s, []) else ({ s with closed := true }, [s.sid])

/-- The transport channel reply of the bridge fetch: whether the HTTP
exchange with the bridge succeeded, its status text, and the decoded
reply object. -/
structure FetchReply where
  ok : Bool
  statusText : String
  reply : ReplyObject

/-- Embedding of the reply-handling path of `TLSClient.executeRequest`: a
non-success bridge channel reply throws a `ClientException`, otherwise the
reply object is decoded by `buildResponse` against the client's jar.  The
envelope construction of `buildRequest` (headers, body, proxy validation)
is orthogonal to the claims and not modelled; nothing in `executeRequest`
consults the `_closed` flag. -/
def executeRequest (s : ClientState) (url : String) (fr : FetchReply) :
    ClientState × Except ClientErr BridgeResponse :=
  if !fr.ok then
    (s, .error (.clientException ("Bridge request failed: " ++ fr.statusText)))
  else
    let br := buildResponse url s.jar fr.reply
    ({ s with jar := br.1 }, br.2)

/-! ## Lemmas about the transport adapter -/

theorem foldl_setCookie (u : String) (l : List String) (a b : Jar) :
    l.foldl (fun (p : Jar × Jar) c => (p.1 ++ [⟨c, u⟩], p.2 ++ [⟨c, u⟩])) (a, b)
      = (a ++ l.map (fun c => ⟨c, u⟩), b ++ l.map (fun c => ⟨c, u⟩)) := by
  induction l generalizing a b with
  | nil => simp
  | cons c t ih => simp [ih]

theorem extractCookiesToJar_eq (u : String) (jar : Jar) (hs : Headers) :
    extractCookiesToJar u jar hs = (cookieCallsOf u hs, jar ++ cookieCallsOf u hs) := by
  simp [extractCookiesToJar, cookieCallsOf, foldl_setCookie]

theorem buildResponseObj_ok (u : String) (jar : Jar) (res : Hop) (h0 : res.status ≠ 0) :
    buildResponseObj u jar res
      = (jar ++ cookieCallsOf u res.headers,
         .ok (.mk (respUrl u res) res.status (flattenHeaders res.headers)
              (cookieCallsOf u res.headers) res.body (!res.isBase64) [])) := by
  simp [buildResponseObj, h0, extractCookiesToJar_eq]

theorem buildHistory_eq (origUrl : String) (hops : List Hop) :
    ∀ (prev : Option Hop) (jar : Jar),
      (∀ hp ∈ hops, hp.status ≠ 0) →
      ∃ rs, buildHistory origUrl jar prev hops
              = (jar ++ hopCookieCalls origUrl prev hops, .ok rs)
        ∧ rs.length = hops.length
        ∧ rs.map BridgeResponse.url = hopUrlList origUrl prev hops := by
  induction hops with
  | nil =>
    intro prev jar _
    exact ⟨[], by simp [buildHistory, hopCookieCalls, hopUrlList]⟩
  | cons h t ih =>
    intro prev jar hok
    have h0 : h.status ≠ 0 := hok h (by simp)
    obtain ⟨rs, hrs, hlen, hurls⟩ :=
      ih (some h) (jar ++ cookieCallsOf (hopUrl origUrl prev) h.headers)
        (fun hp hm => hok hp (by simp [hm]))
    refine ⟨BridgeResponse.mk (respUrl (hopUrl origUrl prev) h) h.status
      (flattenHeaders h.headers) (cookieCallsOf (hopUrl origUrl prev) h.headers)
      h.body (!h.isBase64) [] :: rs, ?_, ?_, ?_⟩
    · simp only [buildHistory]
      rw [buildResponseObj_ok _ _ _ h0]
      simp [hrs, hopCookieCalls]
    · simp [hlen]
    · simp [hopUrlList, hurls, BridgeResponse.url]

theorem mem_hopCookieCalls (origUrl : String) (hops : List Hop) :
    ∀ (prev : Option Hop), ∀ hp ∈ hops, ∀ c ∈ setCookieVals hp.headers,
      ∃ u, (⟨c, u⟩ : SetCookieCall) ∈ hopCookieCalls origUrl prev hops := by
  induction hops with
  | nil => simp
  | cons h t ih =>
    intro prev hp hmem c hc
    rcases List.mem_cons.mp hmem with rfl | hmem2
    · refine ⟨hopUrl origUrl prev, ?_⟩
      simp only [hopCookieCalls, List.mem_append]
      exact Or.inl (List.mem_map.mpr ⟨c, hc, rfl⟩)
    · obtain ⟨u, hu⟩ := ih (some h) hp hmem2 c hc
      exact ⟨u, by simp [hopCookieCalls, hu]⟩

theorem respUrl_falsy (u : String) (h : Hop) (ht : targetFalsy h) : respUrl u h = u := by
  rcases ht with h1 | h1 <;> simp [respUrl, h1]

theorem BridgeResponse.url_withHistory (b : BridgeResponse) (hs : List BridgeResponse) :
    (b.withHistory hs).url = b.url := by
  cases b; rfl

theorem BridgeResponse.history_withHistory (b : BridgeResponse) (hs : List BridgeResponse) :
    (b.withHistory hs).history = hs := by
  cases b; rfl

theorem hopUrlList_eq (origUrl : String) (hops : List Hop) :
    ∀ prev, hops ≠ [] →
      (∀ hp ∈ hops, targetFalsy hp) →
      (∀ hp ∈ hops.dropLast, ∃ l, headerFirst hp.headers "Location" = some l ∧ l ≠ "") →
      hopUrlList origUrl prev hops
        = hopUrl origUrl prev
            :: hops.dropLast.map
                (fun hp => (headerFirst hp.headers "Location").getD origUrl) := by
  induction hops with
  | nil => intro prev hne; exact absurd rfl hne
  | cons h t ih =>
    intro prev _ htgt hloc
    cases t with
    | nil => simp [hopUrlList, respUrl_falsy _ h (htgt h (by simp))]
    | cons h2 t2 =>
      have hdl : (h :: h2 :: t2).dropLast = h :: (h2 :: t2).dropLast := rfl
      have hmemh : h ∈ (h :: h2 :: t2).dropLast := by rw [hdl]; simp
      obtain ⟨l, hl, hlne⟩ := hloc h hmemh
      have hloc2 : ∀ hp ∈ (h2 :: t2).dropLast,
          ∃ l, headerFirst hp.headers "Location" = some l ∧ l ≠ "" := by
        intro hp hm
        exact hloc hp (by rw [hdl]; simp [hm])
      have ihh := ih (some h) (by simp) (fun hp hm => htgt hp (by simp [hm])) hloc2
      have hhu : hopUrl origUrl (some h) = (headerFirst h.headers "Location").getD origUrl := by
        simp [hopUrl, hl, hlne]
      calc hopUrlList origUrl prev (h :: h2 :: t2)
          = respUrl (hopUrl origUrl prev) h :: hopUrlList origUrl (some h) (h2 :: t2) := rfl
        _ = hopUrl origUrl prev
              :: hopUrl origUrl (some h)
              :: (h2 :: t2).dropLast.map
                  (fun hp => (headerFirst hp.headers "Location").getD origUrl) := by
            rw [respUrl_falsy _ h (htgt h (by simp)), ihh]
        _ = hopUrl origUrl prev
              :: ((h :: h2 :: t2).dropLast.map
                  (fun hp => (headerFirst hp.headers "Location").getD origUrl)) := by
            rw [hdl, List.map_cons, hhu]

/-! ## Claim theorems: transport adapter (C1, C2) -/

/-- C1 (amended): for a history reply of N at least 1 hops, none with
status 0, where no hop carries a truthy `target` field and every hop
except the last has a nonempty `Location` first value, the built response
has a history of length N - 1, the 0-th reconstructed URL is the original
request URL, and the k-th reconstructed URL (k at least 1) is the
(k-1)-th hop's `Location` response header. -/
theorem claim1_redirect_history (origUrl : String) (single : Hop) (jar : Jar)
    (hops : List Hop)
    (hok : ∀ hp ∈ hops, hp.status ≠ 0) (hne : hops ≠ [])
    (htgt : ∀ hp ∈ hops, targetFalsy hp)
    (hloc : ∀ hp ∈ hops.dropLast, ∃ l, headerFirst hp.headers "Location" = some l ∧ l ≠ "") :
    ∃ jar2 resp,
      buildResponse origUrl jar ⟨true, single, hops⟩ = (jar2, .ok resp) ∧
      resp.history.length = hops.length - 1 ∧
      resp.history.map BridgeResponse.url ++ [resp.url]
        = origUrl
            :: hops.dropLast.map
                (fun hp => (headerFirst hp.headers "Location").getD origUrl) := by
  obtain ⟨rs, hrs, hlen, hurls⟩ := buildHistory_eq origUrl hops none jar hok
  have hrsne : rs ≠ [] := by
    intro hnil
    apply hne
    rw [hnil] at hlen
    exact List.length_eq_zero.mp hlen.symm
  cases rs with
  | nil => exact absurd rfl hrsne
  | cons r rs2 =>
    have hne2 : (r :: rs2) ≠ [] := by simp
    refine ⟨jar ++ hopCookieCalls origUrl none hops,
      ((r :: rs2).getLast hne2).withHistory ((r :: rs2).dropLast), ?_, ?_, ?_⟩
    · simp [buildResponse, hrs]
    · rw [BridgeResponse.history_withHistory, List.length_dropLast, hlen]
    · rw [BridgeResponse.history_withHistory, BridgeResponse.url_withHistory]
      have hsplit : (r :: rs2).dropLast.map BridgeResponse.url
            ++ [((r :: rs2).getLast hne2).url]
          = (r :: rs2).map BridgeResponse.url := by
        conv_rhs => rw [← List.dropLast_append_getLast hne2]
        simp
      rw [hsplit, hurls]
      exact hopUrlList_eq origUrl hops none hne htgt hloc

/-- C1 witness: a two-hop chain with no targets and a Location on the
first hop reconstructs the second URL from that Location. -/
theorem claim1_redirect_history_witness :
    ∃ jar2 resp,
      buildResponse "http://orig" []
          ⟨true, ⟨200, none, [], "", false⟩,
            [⟨200, none, [("Location", ["http://a/next"])], "", false⟩,
             ⟨200, none, [], "", false⟩]⟩ = (jar2, .ok resp) ∧
      resp.history.length = 1 ∧
      resp.history.map BridgeResponse.url ++ [resp.url]
        = ["http://orig", "http://a/next"] := by
  have h := claim1_redirect_history "http://orig" ⟨200, none, [], "", false⟩ []
    [⟨200, none, [("Location", ["http://a/next"])], "", false⟩,
     ⟨200, none, [], "", false⟩]
    (by intro hp hm; fin_cases hm <;> simp)
    (by simp)
    (by intro hp hm; fin_cases hm <;> simp [targetFalsy])
    (by
      intro hp hm
      simp only [List.dropLast] at hm
      fin_cases hm
      exact ⟨"http://a/next", by simp [headerFirst, headerVal], by simp⟩)
  simpa [headerFirst, headerVal] using h

/-- C1 counterexample: when a hop carries a truthy `target`, the recorded
hop URL is that target, not the previous hop's `Location` header, so the
claim as stated fails. -/
theorem claim1_counterexample :
    ((buildResponse "http://orig" []
        ⟨true, ⟨200, none, [], "", false⟩,
          [⟨200, none, [("Location", ["http://a/next"])], "", false⟩,
           ⟨200, some "http://b", [], "", false⟩]⟩).2.toOption.map
      BridgeResponse.url) = some "http://b"
    ∧ headerFirst [("Location", ["http://a/next"])] "Location" = some "http://a/next"
    ∧ "http://b" ≠ "http://a/next" := by
  refine ⟨rfl, rfl, by decide⟩

/-- C2: for a completed history call the session jar afterwards is the
prior jar extended, hop by hop in chain order, with every hop's Set-Cookie
values; in particular every cookie set by any hop (not only the final one)
is in the jar. -/
theorem claim2_cookie_union (origUrl : String) (single : Hop) (jar : Jar)
    (hops : List Hop)
    (hok : ∀ hp ∈ hops, hp.status ≠ 0) (hne : hops ≠ []) :
    ∃ jar2 resp,
      buildResponse origUrl jar ⟨true, single, hops⟩ = (jar2, .ok resp) ∧
      jar2 = jar ++ hopCookieCalls origUrl none hops ∧
      ∀ hp ∈ hops, ∀ c ∈ setCookieVals hp.headers,
        ∃ u, (⟨c, u⟩ : SetCookieCall) ∈ jar2 := by
  obtain ⟨rs, hrs, hlen, _⟩ := buildHistory_eq origUrl hops none jar hok
  have hrsne : rs ≠ [] := by
    intro hnil
    apply hne
    rw [hnil] at hlen
    exact List.length_eq_zero.mp hlen.symm
  cases rs with
  | nil => exact absurd rfl hrsne
  | cons r rs2 =>
    refine ⟨jar ++ hopCookieCalls origUrl none hops,
      ((r :: rs2).getLast (by simp)).withHistory ((r :: rs2).dropLast), ?_, rfl, ?_⟩
    · simp [buildResponse, hrs]
    · intro hp hm c hc
      obtain ⟨u, hu⟩ := mem_hopCookieCalls origUrl hops none hp hm c hc
      exact ⟨u, by simp [hu]⟩

/-- C2 witness: both hops of a two-hop chain contribute their Set-Cookie
values to the session jar. -/
theorem claim2_cookie_union_witness :
    ∃ jar2 resp,
      buildResponse "http://orig" []
          ⟨true, ⟨200, none, [], "", false⟩,
            [⟨200, none, [("Set-Cookie", ["a=1"]), ("Location", ["http://n"])], "", false⟩,
             ⟨200, none, [("Set-Cookie", ["b=2"])], "", false⟩]⟩ = (jar2, .ok resp) ∧
      jar2 = [⟨"a=1", "http://orig"⟩, ⟨"b=2", "http://n"⟩] ∧
      (⟨"a=1", "http://orig"⟩ : SetCookieCall) ∈ jar2 ∧
      (⟨"b=2", "http://n"⟩ : SetCookieCall) ∈ jar2 := by
  obtain ⟨jar2, resp, heq, hjar, hmem⟩ := claim2_cookie_union "http://orig"
    ⟨200, none, [], "", false⟩ []
    [⟨200, none, [("Set-Cookie", ["a=1"]), ("Location", ["http://n"])], "", false⟩,
     ⟨200, none, [("Set-Cookie", ["b=2"])], "", false⟩]
    (by intro hp hm; fin_cases hm <;> simp)
    (by simp)
  refine ⟨jar2, resp, heq, ?_, ?_, ?_⟩
  · rw [hjar]; rfl
  · rw [hjar]; decide
  · rw [hjar]; decide

/-! ## Lemmas about the scheduler -/

theorem processRequest_events (handler : Handler) (d : Desc) :
    (processRequest handler d).1 = if d.owned then [d.sid] else [] := by
  cases d with
  | mk sid owned raiseExc outcome =>
    cases owned <;> cases outcome <;> cases raiseExc <;>
      simp [processRequest, initState, buildSession, send, closeSession, sessionClose]

theorem processRequest_ok (handler : Handler) (d : Desc)
    (hr : d.raiseException = false) :
    ∃ s, (processRequest handler d).2 = .ok s := by
  cases d with
  | mk sid owned raiseExc outcome =>
    cases hr
    cases owned <;> cases outcome <;>
      simp [processRequest, initState, buildSession, send, closeSession, sessionClose]

theorem processRequest_success (handler : Handler) (d : Desc) (r : Resp)
    (h : d.outcome = .success r) :
    (processRequest handler d).2 = .ok (.resp r) := by
  cases d with
  | mk sid owned raiseExc outcome =>
    cases h
    cases owned <;> cases raiseExc <;>
      simp [processRequest, initState, buildSession, send, closeSession, sessionClose]

/-- The destroy notifications a whole `map` run emits for one list of
descriptors: one per owned session. -/
def ownEvents (ds : List Desc) : List Nat :=
  (ds.filter (fun d => d.owned)).map Desc.sid

theorem runWindow_events (handler : Handler) (w : List Desc) :
    (runWindow handler w).1 = ownEvents w := by
  induction w with
  | nil => simp [runWindow, ownEvents]
  | cons d rest ih =>
    simp only [runWindow, processRequest_events, ownEvents, List.filter_cons]
    cases hd : d.owned <;> simp [ih, ownEvents]

theorem runWindow_ok (handler : Handler) (w : List Desc)
    (h : ∀ d ∈ w, d.raiseException = false) :
    ∃ ss, (runWindow handler w).2 = .ok ss := by
  induction w with
  | nil => exact ⟨[], rfl⟩
  | cons d rest ih =>
    obtain ⟨s, hs⟩ := processRequest_ok handler d (h d (by simp))
    obtain ⟨ss, hss⟩ := ih (fun x hx => h x (by simp [hx]))
    exact ⟨s :: ss, by simp [runWindow, hs, hss]⟩

theorem runWindow_success (handler : Handler) (w : List Desc)
    (hs : ∀ d ∈ w, d.outcome.isSuccess = true) :
    (runWindow handler w).2 = .ok (w.map (fun d => Slot.resp d.outcome.respD)) := by
  induction w with
  | nil => rfl
  | cons d rest ih =>
    have hsd : d.outcome.isSuccess = true := hs d (by simp)
    obtain ⟨r, hr⟩ : ∃ r, d.outcome = .success r := by
      cases ho : d.outcome
      · exact ⟨_, rfl⟩
      · rw [ho] at hsd; simp [Outcome.isSuccess] at hsd
    have h1 := processRequest_success handler d r hr
    have h2 := ih (fun x hx => hs x (by simp [hx]))
    simp [runWindow, h1, h2, hr, Outcome.respD]

theorem runWindows_events (handler : Handler) (ws : List (List Desc))
    (h : ∀ w ∈ ws, ∀ d ∈ w, d.raiseException = false) :
    (runWindows handler ws).1 = ownEvents ws.flatten := by
  induction ws with
  | nil => simp [runWindows, ownEvents]
  | cons w rest ih =>
    obtain ⟨ss, hss⟩ := runWindow_ok handler w (h w (by simp))
    have ihe := ih (fun x hx d hd => h x (by simp [hx]) d hd)
    simp [runWindows, hss, runWindow_events, ihe, ownEvents, List.filter_append]

theorem chunksF_join (bs : Nat) (fuel : Nat) :
    ∀ ds : List Desc, ds.length ≤ fuel → (0 < bs ∨ ds = []) →
      (chunksF bs fuel ds).flatten = ds := by
  induction fuel with
  | zero =>
    intro ds hf _
    have : ds = [] := List.length_eq_zero.mp (Nat.le_zero.mp hf)
    subst this
    rfl
  | succ fuel ih =>
    intro ds hf hbs
    cases ds with
    | nil => rfl
    | cons d rest =>
      have hbs1 : 0 < bs := by
        rcases hbs with h | h
        · exact h
        · exact absurd h (by simp)
      have hlen : ((d :: rest).drop bs).length ≤ fuel := by
        rw [List.length_drop]
        have := List.length_cons d rest ▸ hf
        omega
      simp only [chunksF, List.flatten]
      rw [ih _ hlen (Or.inl hbs1), List.take_append_drop]

theorem filterMap_slotOut_resp (l : List Desc) :
    List.filterMap slotOut (l.map (fun d => Slot.resp d.outcome.respD))
      = l.map (fun d => MapOut.resp d.outcome.respD) := by
  induction l with
  | nil => rfl
  | cons a t ih => simp [slotOut, ih]

theorem runWindows_success (handler : Handler) (bs fuel : Nat) :
    ∀ ds : List Desc, ds.length ≤ fuel → (0 < bs ∨ ds = []) →
      (∀ d ∈ ds, d.outcome.isSuccess = true) →
      (runWindows handler (chunksF bs fuel ds)).2
        = .ok (ds.map (fun d => MapOut.resp d.outcome.respD)) := by
  induction fuel with
  | zero =>
    intro ds hf _ _
    have : ds = [] := List.length_eq_zero.mp (Nat.le_zero.mp hf)
    subst this
    rfl
  | succ fuel ih =>
    intro ds hf hbs hs
    cases ds with
    | nil => rfl
    | cons d rest =>
      have hbs1 : 0 < bs := by
        rcases hbs with h | h
        · exact h
        · exact absurd h (by simp)
      have hlen : ((d :: rest).drop bs).length ≤ fuel := by
        rw [List.length_drop]
        have := List.length_cons d rest ▸ hf
        omega
      have htake : ∀ x ∈ (d :: rest).take bs, x.outcome.isSuccess = true :=
        fun x hx => hs x (List.take_subset _ _ hx)
      have hdrop : ∀ x ∈ (d :: rest).drop bs, x.outcome.isSuccess = true :=
        fun x hx => hs x (List.drop_subset _ _ hx)
      have h1 := runWindow_success handler ((d :: rest).take bs) htake
      have h2 := ih _ hlen (Or.inl hbs1) hdrop
      simp only [chunksF, runWindows, h1, h2]
      rw [filterMap_slotOut_resp, ← List.map_append, List.take_append_drop]

/-! ## Claim theorems: scheduler (C3, C4, C5, C6) -/

/-- C3: a descriptor processed by `map` destroys an owned (temporary)
session exactly once — one notification carrying its session id on every
success and failure path — and never destroys a borrowed session; over a
whole `map` run of recorded-failure descriptors the notifications are
exactly one per owned descriptor, in order. -/
theorem claim3_owned_destroyed_once :
    (∀ (handler : Handler) (d : Desc),
        (processRequest handler d).1 = if d.owned then [d.sid] else []) ∧
    (∀ (handler : Handler) (size : Option Nat) (ds : List Desc),
        (∀ d ∈ ds, d.raiseException = false) →
        (mapModel handler size ds).1 = ownEvents ds) := by
  constructor
  · exact processRequest_events
  · intro handler size ds h
    have hbs : 0 < (match size with
        | none => ds.length
        | some n => if n = 0 then ds.length else n) ∨ ds = [] := by
      cases ds with
      | nil => exact Or.inr rfl
      | cons d rest =>
        cases size with
        | none => exact Or.inl (by simp)
        | some n =>
          cases n with
          | zero => exact Or.inl (by simp)
          | succ m => exact Or.inl (by simp)
    have hjoin := chunksF_join _ ds.length ds le_rfl hbs
    have hmem : ∀ w ∈ chunksF (match size with
        | none => ds.length
        | some n => if n = 0 then ds.length else n) ds.length ds,
        ∀ d ∈ w, d.raiseException = false := by
      intro w hw d hd
      exact h d (hjoin ▸ List.mem_flatten.mpr ⟨w, hw, hd⟩)
    unfold mapModel
    rw [runWindows_events _ _ hmem, hjoin]

/-- C3 witness: one owned and one borrowed descriptor through `map` give
exactly the owned session's destroy notification. -/
theorem claim3_owned_destroyed_once_witness :
    (processRequest none ⟨5, true, false, .success ⟨1⟩⟩).1 = [5] ∧
    (mapModel none none
        [⟨5, true, false, .success ⟨1⟩⟩, ⟨6, false, false, .failure ⟨2⟩⟩]).1 = [5] := by
  have h := claim3_owned_destroyed_once
  constructor
  · have h1 := h.1 none ⟨5, true, false, .success ⟨1⟩⟩
    simpa using h1
  · have h2 := h.2 none none
      [⟨5, true, false, .success ⟨1⟩⟩, ⟨6, false, false, .failure ⟨2⟩⟩]
      (by intro d hd; fin_cases hd <;> rfl)
    simpa [ownEvents] using h2

/-- C4: at the failing input — a single descriptor with `raiseException`
false whose call fails, no exception handler — `map` returns an empty
output: `send` records the error instead of throwing, so the worker
resolves with the null `req.response` and the output filter drops the
slot; the handler/`FailedResponse` branch of `map` is never reached. -/
theorem claim4_failed_slot_dropped :
    (mapModel none none [⟨7, true, false, .failure ⟨3⟩⟩]).2 = .ok [] ∧
    (processRequest none ⟨7, true, false, .failure ⟨3⟩⟩).2 = .ok .nullSlot ∧
    (mapModel (some (fun _ e => some ⟨100 + e.code⟩)) none
        [⟨7, true, false, .failure ⟨3⟩⟩]).2 = .ok [] := by
  exact ⟨rfl, rfl, rfl⟩

/-- C5: when every descriptor's call succeeds, `map` returns exactly one
response per descriptor, in submission order within and across windows:
the i-th output is the response of the i-th descriptor. -/
theorem claim5_map_order (handler : Handler) (size : Option Nat) (ds : List Desc)
    (hs : ∀ d ∈ ds, d.outcome.isSuccess = true) :
    (mapModel handler size ds).2 = .ok (ds.map (fun d => MapOut.resp d.outcome.respD)) := by
  have hbs : 0 < (match size with
      | none => ds.length
      | some n => if n = 0 then ds.length else n) ∨ ds = [] := by
    cases ds with
    | nil => exact Or.inr rfl
    | cons d rest =>
      cases size with
      | none => exact Or.inl (by simp)
      | some n =>
        cases n with
        | zero => exact Or.inl (by simp)
        | succ m => exact Or.inl (by simp)
  unfold mapModel
  exact runWindows_success handler _ ds.length ds le_rfl hbs hs

/-- C5 witness: three successful descriptors over windows of size 2 give
their three responses in submission order. -/
theorem claim5_map_order_witness :
    (mapModel none (some 2)
        [⟨1, true, false, .success ⟨10⟩⟩, ⟨2, true, false, .success ⟨11⟩⟩,
         ⟨3, true, false, .success ⟨12⟩⟩]).2
      = .ok [.resp ⟨10⟩, .resp ⟨11⟩, .resp ⟨12⟩] := by
  have h := claim5_map_order none (some 2)
    [⟨1, true, false, .success ⟨10⟩⟩, ⟨2, true, false, .success ⟨11⟩⟩,
     ⟨3, true, false, .success ⟨12⟩⟩]
    (by intro d hd; fin_cases hd <;> rfl)
  simpa [Outcome.respD] using h

/-- C6: at the failing input — two descriptors, window size 2, where the
second completes before the first — `imapEnum` yields two pairs both
carrying original index 1: the loop removes the first pending promise
instead of the completed one (the `findIndex` predicate is async and so
always truthy at index 0), so the settled promise is raced and yielded
again, duplicating index 1 and losing index 0. -/
theorem claim6_imapEnum_duplicate :
    imapEnumModel none 2 (fun i => if i = 0 then 2 else 1)
        [⟨1, true, false, .success ⟨10⟩⟩, ⟨2, true, false, .success ⟨11⟩⟩]
      = [(1, some (.resp ⟨11⟩)), (1, some (.resp ⟨11⟩))] := by
  rfl


/-! ## Lemmas about the cookie jar lookup -/

theorem findGo_some_acc (name : String) (dom path : Option String) (v : String) :
    ∀ cs : List StoreCookie,
      findNoDuplicatesGo name dom path cs (some v)
        = if cs.any (cookieMatches name dom path) then .error (.conflict name)
          else .ok v := by
  intro cs
  induction cs with
  | nil => simp [findNoDuplicatesGo]
  | cons c rest ih =>
    cases hc : cookieMatches name dom path c with
    | true => simp [findNoDuplicatesGo, hc]
    | false => simp [findNoDuplicatesGo, hc, ih]

theorem findNoDuplicates_eq (name : String) (dom path : Option String)
    (cs : List StoreCookie) :
    findNoDuplicates cs name dom path =
      match cs.filter (cookieMatches name dom path) with
      | [] => .error (.notFound name)
      | [c] => .ok c.value
      | _ :: _ :: _ => .error (.conflict name) := by
  unfold findNoDuplicates
  induction cs with
  | nil => simp [findNoDuplicatesGo]
  | cons c rest ih =>
    cases hc : cookieMatches name dom path c with
    | true =>
      rw [List.filter_cons_of_pos hc]
      simp only [findNoDuplicatesGo, hc, if_true]
      rw [findGo_some_acc]
      cases hany : rest.any (cookieMatches name dom path) with
      | true =>
        obtain ⟨x, hx, hpx⟩ := List.any_eq_true.mp hany
        have hmemf : x ∈ rest.filter (cookieMatches name dom path) :=
          List.mem_filter.mpr ⟨hx, hpx⟩
        cases hfil : rest.filter (cookieMatches name dom path) with
        | nil => rw [hfil] at hmemf; simp at hmemf
        | cons y t => simp
      | false =>
        have hfil : rest.filter (cookieMatches name dom path) = [] := by
          rw [List.filter_eq_nil_iff]
          intro x hx
          exact List.any_eq_false.mp hany x hx
        rw [hfil]
        simp
    | false =>
      rw [List.filter_cons_of_neg (by simp [hc])]
      simp only [findNoDuplicatesGo, hc]
      simpa using ih

/-! ## Claim theorems: cookie jar lookup (C7) -/

/-- C7 counterexample: with two stored cookies named a (different domains)
and no qualifiers, `get` returns the supplied default instead of raising:
the `CookieConflictError` that `_findNoDuplicates` throws is swallowed by
the catch-all in `get`, so no cookie-ambiguous error reaches the caller. -/
theorem claim7_counterexample :
    jarGet [⟨"a", "1", some "x.com", some "/"⟩, ⟨"a", "2", some "y.com", some "/"⟩]
        "a" (some "D") none none = some "D" ∧
    findNoDuplicates [⟨"a", "1", some "x.com", some "/"⟩, ⟨"a", "2", some "y.com", some "/"⟩]
        "a" none none = .error (.conflict "a") := by
  exact ⟨rfl, rfl⟩

/-- C7 (amended): the two failure kinds exist and are distinguishable at
the `_findNoDuplicates` level — zero matches throw the generic not-found
error, two or more matches throw `CookieConflictError` — but `get` itself
never raises: on any failure it returns the supplied default (or
undefined). -/
theorem claim7_get_swallows (cs : List StoreCookie) (name : String) :
    (jarMatchCount cs name = 0 →
        findNoDuplicates cs name none none = .error (.notFound name)) ∧
    (2 ≤ jarMatchCount cs name →
        findNoDuplicates cs name none none = .error (.conflict name)) ∧
    (∀ dflt, jarMatchCount cs name ≠ 1 → jarGet cs name dflt none none = dflt) ∧
    (∀ n m : String, CookieErr.conflict n ≠ CookieErr.notFound m) := by
  have hkey := findNoDuplicates_eq name none none cs
  refine ⟨?_, ?_, ?_, by intro n m h; cases h⟩
  · intro h0
    have hfil : cs.filter (cookieMatches name none none) = [] :=
      List.length_eq_zero.mp h0
    rw [hkey, hfil]
  · intro h2
    cases hfil : cs.filter (cookieMatches name none none) with
    | nil => rw [jarMatchCount, hfil] at h2; simp at h2
    | cons x t =>
      cases t with
      | nil => rw [jarMatchCount, hfil] at h2; simp at h2
      | cons y t2 => rw [hkey, hfil]
  · intro dflt h1
    unfold jarGet
    cases hfil : cs.filter (cookieMatches name none none) with
    | nil => rw [hkey, hfil]
    | cons x t =>
      cases t with
      | nil => rw [jarMatchCount, hfil] at h1; simp at h1
      | cons y t2 => rw [hkey, hfil]

/-- C7 witness: the amended behavior at a concrete two-cookie jar and at
the empty jar. -/
theorem claim7_get_swallows_witness :
    findNoDuplicates [⟨"a", "1", some "x.com", some "/"⟩, ⟨"a", "2", some "y.com", some "/"⟩]
        "a" none none = .error (.conflict "a") ∧
    findNoDuplicates ([] : List StoreCookie) "b" none none = .error (.notFound "b") ∧
    jarGet [⟨"a", "1", some "x.com", some "/"⟩, ⟨"a", "2", some "y.com", some "/"⟩]
        "a" (some "D") none none = some "D" := by
  refine ⟨?_, ?_, ?_⟩
  · exact (claim7_get_swallows
      [⟨"a", "1", some "x.com", some "/"⟩, ⟨"a", "2", some "y.com", some "/"⟩] "a").2.1
      (by decide)
  · exact (claim7_get_swallows [] "b").1 (by decide)
  · exact (claim7_get_swallows
      [⟨"a", "1", some "x.com", some "/"⟩, ⟨"a", "2", some "y.com", some "/"⟩] "a").2.2.1
      (some "D") (by decide)

/-! ## Claim theorems: session lifecycle (C8) -/

/-- C8 counterexample: after `close` the client is marked closed, yet a
further `executeRequest` completes normally with the transport's response
(here a status-200 hop) — no session-closed failure exists anywhere on the
call path, so the claim that every call after close fails is false. -/
theorem claim8_counterexample :
    (clientClose ⟨5, false, []⟩).1.closed = true ∧
    ∃ resp,
      (executeRequest (clientClose ⟨5, false, []⟩).1 "http://x"
          ⟨true, "", ⟨false, ⟨200, none, [], "ok", false⟩, []⟩⟩).2 = .ok resp ∧
      resp.statusCode = 200 := by
  exact ⟨rfl, _, rfl, rfl⟩

/-- C8 (amended): `close` is idempotent — the second close changes nothing
and emits nothing, and any close emits at most one destroy notification —
but a call attempted after close does not fail: the request path never
consults the closed flag, so it behaves exactly as on the open client. -/
theorem claim8_close_idempotent :
    (∀ s : ClientState, clientClose (clientClose s).1 = ((clientClose s).1, [])) ∧
    (∀ s : ClientState, (clientClose s).2.length ≤ 1) ∧
    (∀ (s : ClientState) (url : String) (fr : FetchReply),
        executeRequest { s with closed := true } url fr
          = ({ (executeRequest s url fr).1 with closed := true },
             (executeRequest s url fr).2)) := by
  refine ⟨?_, ?_, ?_⟩
  · intro s
    by_cases h : s.closed <;> simp [clientClose, h]
  · intro s
    by_cases h : s.closed <;> simp [clientClose, h]
  · intro s url fr
    by_cases h : fr.ok <;> simp [executeRequest, h]

/-! ## Lemmas about CaseInsensitiveDict -/

theorem find_overwrite (d : CIDict) (k v lk : String) :
    (d.map (fun e => if e.1 = lowerStr k then (e.1, k, v) else e)).find?
        (fun e => e.1 = lk)
      = if lk = lowerStr k then
          (if d.any (fun e => e.1 = lowerStr k) then some (lowerStr k, k, v) else none)
        else d.find? (fun e => e.1 = lk) := by
  induction d with
  | nil => by_cases h : lk = lowerStr k <;> simp [h]
  | cons e t ih =>
    simp only [List.map_cons, List.any_cons]
    by_cases he : e.1 = lowerStr k
    · rw [if_pos he]
      by_cases hlk : lk = lowerStr k
      · rw [List.find?_cons_of_pos _ (by simp [he, hlk]), if_pos hlk]
        simp [he]
      · have hne : ¬ ((e.1, k, v).1 = lk) := fun hh => hlk ((he ▸ hh : (lowerStr k) = lk).symm)
        rw [List.find?_cons_of_neg _ (by simpa using hne), ih, if_neg hlk, if_neg hlk]
        have hne2 : ¬ (e.1 = lk) := fun hh => hlk ((hh ▸ he : lk = lowerStr k))
        rw [List.find?_cons_of_neg _ (by simpa using hne2)]
    · rw [if_neg he]
      by_cases hlk : lk = lowerStr k
      · have hne : ¬ (e.1 = lk) := fun hh => he (hlk ▸ hh)
        rw [List.find?_cons_of_neg _ (by simpa using hne), ih, if_pos hlk, if_pos hlk]
        have hd : decide (e.1 = lowerStr k) = false := by simpa using he
        simp only [hd, Bool.false_or]
      · by_cases hel : e.1 = lk
        · rw [List.find?_cons_of_pos _ (by simpa using hel), if_neg hlk,
              List.find?_cons_of_pos _ (by simpa using hel)]
        · rw [List.find?_cons_of_neg _ (by simpa using hel), ih, if_neg hlk, if_neg hlk,
              List.find?_cons_of_neg _ (by simpa using hel)]

theorem find_notIn (d : CIDict) (lk : String)
    (h : d.any (fun e => e.1 = lk) = false) :
    d.find? (fun e => e.1 = lk) = none := by
  rw [List.find?_eq_none]
  intro x hx
  exact List.any_eq_false.mp h x hx

theorem ciGet_ciSet (d : CIDict) (k v k2 : String) :
    ciGet (ciSet d k v) k2
      = if lowerStr k2 = lowerStr k then some v else ciGet d k2 := by
  unfold ciGet ciSet
  by_cases hany : d.any (fun e => e.1 = lowerStr k) = true
  · rw [if_pos hany, find_overwrite]
    by_cases hk : lowerStr k2 = lowerStr k
    · rw [if_pos hk, if_pos hk, if_pos hany]
      rfl
    · rw [if_neg hk, if_neg hk]
  · rw [if_neg hany, List.find?_append]
    by_cases hk : lowerStr k2 = lowerStr k
    · have hnone : d.find? (fun e => e.1 = lowerStr k2) = none := by
        apply find_notIn
        rw [hk]
        exact Bool.eq_false_iff.mpr hany
      rw [if_pos hk, hnone]
      have hsing : (([(lowerStr k, k, v)] : CIDict).find? (fun e => e.1 = lowerStr k2))
          = some (lowerStr k, k, v) :=
        List.find?_cons_of_pos _ (by simp [hk])
      simp [hsing]
    · have hsing : (([(lowerStr k, k, v)] : CIDict).find? (fun e => e.1 = lowerStr k2))
          = none := by
        rw [List.find?_eq_none]
        intro x hx
        simp only [List.mem_singleton] at hx
        subst hx
        simp only [decide_eq_true_eq]
        exact fun hh => hk hh.symm
      rw [if_neg hk]
      simp only [hsing]
      cases hfind : d.find? (fun e => e.1 = lowerStr k2) <;> simp

theorem ciCasedKey_ciSet (d : CIDict) (k v : String) :
    ciCasedKey (ciSet d k v) (lowerStr k) = some k := by
  unfold ciCasedKey ciSet
  by_cases hany : d.any (fun e => e.1 = lowerStr k) = true
  · rw [if_pos hany, find_overwrite, if_pos rfl, if_pos hany]
    rfl
  · rw [if_neg hany, List.find?_append]
    have hnone : d.find? (fun e => e.1 = lowerStr k) = none :=
      find_notIn d (lowerStr k) (Bool.eq_false_iff.mpr hany)
    have hsing : (([(lowerStr k, k, v)] : CIDict).find? (fun e => e.1 = lowerStr k))
        = some (lowerStr k, k, v) :=
      List.find?_cons_of_pos _ (by simp)
    simp [hnone, hsing]

/-! ## Claim theorems: header map (C9) -/

/-- C9 counterexample: after setting Accept and then ACCEPT, iteration
reports the casing ACCEPT of the most recent set, not the first-seen
casing Accept, so the first-seen-casing part of the claim is false (while
lookup stays case-insensitive). -/
theorem claim9_counterexample :
    ciKeys (ciSet (ciSet [] "Accept" "a") "ACCEPT" "b") = ["ACCEPT"] ∧
    ciGet (ciSet (ciSet [] "Accept" "a") "ACCEPT" "b") "accept" = some "b" ∧
    ("ACCEPT" : String) ≠ "Accept" := by
  refine ⟨rfl, rfl, by decide⟩

/-- C9 (amended): lookup and overwrite are case-insensitive on the header
name — a set with any casing overwrites, and lookup with any casing finds
the latest value, while names with a different lowercasing are untouched —
but the casing reported for a name is the casing used by the most recent
set of that name (stored at the position of first insertion). -/
theorem claim9_case_insensitive (d : CIDict) (k v k2 : String) :
    (lowerStr k2 = lowerStr k → ciGet (ciSet d k v) k2 = some v) ∧
    (lowerStr k2 ≠ lowerStr k → ciGet (ciSet d k v) k2 = ciGet d k2) ∧
    ciCasedKey (ciSet d k v) (lowerStr k) = some k := by
  refine ⟨?_, ?_, ciCasedKey_ciSet d k v⟩
  · intro h
    rw [ciGet_ciSet, if_pos h]
  · intro h
    rw [ciGet_ciSet, if_neg h]

/-- C9 witness: the amended behavior at the Accept/ACCEPT instance. -/
theorem claim9_case_insensitive_witness :
    ciGet (ciSet (ciSet [] "Accept" "a") "ACCEPT" "b") "accept" = some "b" ∧
    ciCasedKey (ciSet (ciSet [] "Accept" "a") "ACCEPT" "b") "accept" = some "ACCEPT" := by
  constructor
  · exact (claim9_case_insensitive (ciSet [] "Accept" "a") "ACCEPT" "b" "accept").1
      (by decide)
  · have h := (claim9_case_insensitive (ciSet [] "Accept" "a") "ACCEPT" "b" "accept").2.2
    have hl : lowerStr "ACCEPT" = "accept" := by decide
    rw [hl] at h
    exact h

/-! ## Claim theorems: response encoding (C10) -/

/-- Whether the Content-Type charset capture exists and strips to nothing
(only quote characters); exactly then the detected encoding is empty. -/
def charsetAllQuotes (headers : CIDict) : Bool :=
  match ciGet headers "Content-Type" with
  | some ct =>
    if ct = "" then false
    else
      match charsetCapture ct.toList with
      | some cap => (stripQuotes cap).isEmpty
      | none => false
  | none => false

theorem bomDetect_ne (raw : List Nat) : bomDetect raw ≠ "" := by
  cases raw with
  | nil => simp [bomDetect]
  | cons b0 t0 =>
    cases t0 with
    | nil => simp [bomDetect]
    | cons b1 t1 =>
      cases t1 with
      | nil => simp [bomDetect]
      | cons b2 t2 =>
        simp only [bomDetect]
        split_ifs <;> simp

/-- C10 counterexample: a Response whose Content-Type header carries
`charset=""` (a charset of quote characters only) and no explicit encoding
option gets the empty encoding, and the `text` getter then takes the
`EncodingNotFoundException` branch — so that branch is reachable.  The
same happens when a no-break space ends the capture right after one
quote (`\s` matches U+00A0), so the stripped charset is again empty. -/
theorem claim10_counterexample :
    responseEncoding (ciSet [] "Content-Type" "text/html; charset=\"\"") [] = "" ∧
    textThrows (responseEncoding
      (ciSet [] "Content-Type" "text/html; charset=\"\"") []) = true ∧
    responseEncoding (ciSet [] "Content-Type" "text/html; charset=\"\u00A0") [] = "" ∧
    textThrows (responseEncoding
      (ciSet [] "Content-Type" "text/html; charset=\"\u00A0") []) = true := by
  exact ⟨rfl, rfl, rfl, rfl⟩

theorem detectEncoding_eq_none (headers : CIDict) (raw : List Nat)
    (hct : ciGet headers "Content-Type" = none) :
    detectEncoding headers raw = bomDetect raw := by
  unfold detectEncoding
  rw [hct]

theorem detectEncoding_eq_emptyct (headers : CIDict) (raw : List Nat) (ct : String)
    (hct : ciGet headers "Content-Type" = some ct) (hemp : ct = "") :
    detectEncoding headers raw = bomDetect raw := by
  unfold detectEncoding
  rw [hct]
  simp only [if_pos hemp]

theorem detectEncoding_eq_nocap (headers : CIDict) (raw : List Nat) (ct : String)
    (hct : ciGet headers "Content-Type" = some ct) (hemp : ct ≠ "")
    (hcap : charsetCapture ct.toList = none) :
    detectEncoding headers raw = bomDetect raw := by
  unfold detectEncoding
  rw [hct]
  simp only [if_neg hemp, hcap]

theorem detectEncoding_eq_cap (headers : CIDict) (raw : List Nat) (ct : String)
    (cap : List Char)
    (hct : ciGet headers "Content-Type" = some ct) (hemp : ct ≠ "")
    (hcap : charsetCapture ct.toList = some cap) :
    detectEncoding headers raw = String.mk (stripQuotes cap) := by
  unfold detectEncoding
  rw [hct]
  simp only [if_neg hemp, hcap]

theorem charsetAllQuotes_cap (headers : CIDict) (ct : String) (cap : List Char)
    (hct : ciGet headers "Content-Type" = some ct) (hemp : ct ≠ "")
    (hcap : charsetCapture ct.toList = some cap) :
    charsetAllQuotes headers = (stripQuotes cap).isEmpty := by
  unfold charsetAllQuotes
  rw [hct]
  simp only [if_neg hemp, hcap]

/-- C10 (amended): a Response constructed without an explicit encoding
option gets a nonempty encoding — the charset of the Content-Type header
with quotes stripped, else BOM sniffing, else the utf-8 default — except
in the one case where the charset parameter consists solely of quote
characters; outside that case the `EncodingNotFoundException` branch of
the `text` getter is unreachable. -/
theorem claim10_encoding_nonempty (headers : CIDict) (raw : List Nat)
    (h : charsetAllQuotes headers = false) :
    responseEncoding headers raw ≠ "" ∧
    textThrows (responseEncoding headers raw) = false := by
  have hne : responseEncoding headers raw ≠ "" := by
    unfold responseEncoding
    cases hct : ciGet headers "Content-Type" with
    | none =>
      rw [detectEncoding_eq_none headers raw hct]
      exact bomDetect_ne raw
    | some ct =>
      by_cases hemp : ct = ""
      · rw [detectEncoding_eq_emptyct headers raw ct hct hemp]
        exact bomDetect_ne raw
      · cases hcap : charsetCapture ct.toList with
        | none =>
          rw [detectEncoding_eq_nocap headers raw ct hct hemp hcap]
          exact bomDetect_ne raw
        | some cap =>
          rw [detectEncoding_eq_cap headers raw ct cap hct hemp hcap]
          have hq : (stripQuotes cap).isEmpty = false := by
            rw [← charsetAllQuotes_cap headers ct cap hct hemp hcap]
            exact h
          intro hcontra
          have hdata : stripQuotes cap = [] := by
            have := congrArg String.data hcontra
            simpa using this
          rw [hdata] at hq
          simp at hq
  refine ⟨hne, ?_⟩
  unfold textThrows
  simpa using hne

/-- C10 witness: a plain charset parameter yields a nonempty encoding and
the text getter does not throw. -/
theorem claim10_encoding_nonempty_witness :
    responseEncoding (ciSet [] "Content-Type" "text/html; charset=utf-8") [] ≠ "" ∧
    textThrows (responseEncoding
      (ciSet [] "Content-Type" "text/html; charset=utf-8") []) = false := by
  exact claim10_encoding_nonempty (ciSet [] "Content-Type" "text/html; charset=utf-8") []
    (by decide)

end Hrequests
